import Mathlib

/-!
Verification of the preflight-ai context-selection engine.

This file shallowly embeds the core components of the repository
(token accounting in src/core/token_counter.py and src/core/constants.py,
content compression in src/core/compressor.py, the codebase index in
src/memory/file_indexer.py, the project memory store in
src/memory/memory_manager.py, the post-change updater in
src/memory/memory_updater.py, and the context selector in
src/memory/context_finder.py) and proves the testable properties stated
in the specification against the embedding.

Modelling conventions:
* Python dicts are modelled as association lists (List (String × α))
  with insertion-order semantics: assignment upserts in place, lookup
  finds the (unique live) binding, iteration follows list order.
* The tiktoken tokenizer (an external library) is abstracted as an
  arbitrary function tok : String → Nat supplied as a parameter.
* Python floats are modelled exactly as rationals; round(x, 6) is
  modelled as decimal round-half-to-even, which agrees with Python on
  every value appearing in the theorems below (none is a halfway case).
* Filesystem state is passed explicitly as association lists from path
  to content.
-/

namespace Preflight

/-! ## Python dict primitives (association lists, insertion ordered) -/

/-- Lookup in a Python dict: d.get(k) / d[k].  The dicts in this file
are only ever built by dictSet, so keys are never duplicated and
first-match lookup is exact. -/
def dictGet {α : Type} : List (String × α) → String → Option α
  | [], _ => none
  | e :: t, k => if e.1 == k then some e.2 else dictGet t k

/-- Assignment d[k] = v: replace the value at an existing key in place
(keeping its position, as a Python dict does), else append at the end. -/
def dictSet {α : Type} : List (String × α) → String → α → List (String × α)
  | [], k, v => [(k, v)]
  | e :: t, k, v => if e.1 == k then (k, v) :: t else e :: dictSet t k v

/-- Deletion d.pop(k, None): remove the binding for k if present. -/
def dictPop {α : Type} : List (String × α) → String → List (String × α)
  | [], _ => []
  | e :: t, k => if e.1 == k then t else e :: dictPop t k

/-- Membership test k in d. -/
def dictHas {α : Type} (d : List (String × α)) (k : String) : Bool :=
  (dictGet d k).isSome

theorem dictGet_dictSet_self {α : Type} (d : List (String × α)) (k : String)
    (v : α) : dictGet (dictSet d k v) k = some v := by
  induction d with
  | nil => simp [dictGet, dictSet]
  | cons e t ih =>
      by_cases he : (e.1 == k) = true
      · simp [dictGet, dictSet, he]
      · simp [dictGet, dictSet, he, ih]

theorem dictGet_dictSet_ne {α : Type} (d : List (String × α)) (k k' : String)
    (v : α) (h : k ≠ k') : dictGet (dictSet d k v) k' = dictGet d k' := by
  have hkk' : ((k : String) == k') = false := by simpa using h
  induction d with
  | nil => simp [dictGet, dictSet, hkk']
  | cons e t ih =>
      by_cases he : (e.1 == k) = true
      · have hek : e.1 = k := by simpa using he
        have he' : (e.1 == k') = false := by rw [hek]; exact hkk'
        simp [dictGet, dictSet, he, he', hkk']
      · by_cases he' : (e.1 == k') = true
        · simp [dictGet, dictSet, he, he']
        · simp [dictGet, dictSet, he, he', ih]

/-! ## src/core/constants.py -/

def PROVIDER_CLAUDE : String := "claude"

def SONNET : String := "claude-sonnet-4-5"

def HAIKU : String := "claude-haiku-4-5-20251001"

/-- Default of the PREFLIGHT_GEMINI_PRO_MODEL environment lookup
(the environment override is modelled at its default). -/
def GEMINI_PRO : String := "gemini-1.5-pro"

/-- Default of the PREFLIGHT_GEMINI_FLASH_MODEL environment lookup. -/
def GEMINI_FLASH : String := "gemini-1.5-flash"

/-- Per-million-token price entry of COSTS_PER_MILLION. -/
structure Rates where
  input : ℚ
  output : ℚ
  cache_read : ℚ
  cache_write : ℚ
deriving DecidableEq, Repr

/-- COSTS_PER_MILLION, built key by key the way the Python dict literal
is: a repeated key (GEMINI_PRO and GEMINI_FLASH default to the same
strings as the two literal gemini keys) overwrites the earlier value in
place. -/
def COSTS_PER_MILLION : List (String × Rates) :=
  dictSet (dictSet (dictSet (dictSet (dictSet (dictSet []
    SONNET ⟨3.00, 15.00, 0.30, 3.75⟩)
    HAIKU ⟨1.00, 5.00, 0.10, 1.25⟩)
    "gemini-1.5-pro" ⟨1.25, 5.00, 0.315, 1.25⟩)
    "gemini-1.5-flash" ⟨0.075, 0.30, 0.018, 0.075⟩)
    GEMINI_PRO ⟨1.25, 10.00, 0.315, 1.25⟩)
    GEMINI_FLASH ⟨0.15, 0.60, 0.0375, 0.15⟩

def CONTEXT_TOKEN_THRESHOLD : Nat := 2000

def IGNORED_DIRS : List String :=
  [".git", ".svn", "node_modules", "venv", ".venv", "env", "__pycache__",
   ".preflight", ".claude", ".gemini", "dist", "build", ".eggs", ".tox",
   ".mypy_cache", ".pytest_cache"]

def INDEXED_EXTENSIONS : List String :=
  [".py", ".js", ".ts", ".jsx", ".tsx", ".go", ".rs", ".java", ".rb",
   ".php", ".swift", ".kt", ".c", ".cpp", ".h", ".css", ".scss", ".html",
   ".vue", ".svelte", ".sql", ".graphql", ".proto", ".yaml", ".yml",
   ".toml", ".json", ".md", ".txt", ".env", ".sh", ".bash", ".zsh",
   ".dockerfile"]

/-! ## src/core/token_counter.py: estimate_cost

Python floats are modelled as exact rationals; round(x, 6) is decimal
round-half-to-even at six places. -/

/-- Round-half-to-even to the nearest integer, as Python's round. -/
def roundHalfEven (q : ℚ) : ℤ :=
  let n : ℤ := Rat.floor q
  let f : ℚ := q - (n : ℚ)
  if f < 1/2 then n
  else if 1/2 < f then n + 1
  else if n % 2 = 0 then n else n + 1

/-- Python's round(x, 6). -/
def pyRound6 (q : ℚ) : ℚ :=
  ((roundHalfEven (q * 1000000) : ℚ)) / 1000000

/-- The pre-rounding value computed inside estimate_cost: the linear
combination of per-million rates (0 when the model is unpriced). -/
def linear_cost (input_tokens output_tokens : ℤ) (model : String)
    (cached_input_tokens : ℤ) : ℚ :=
  match dictGet COSTS_PER_MILLION model with
  | none => 0
  | some costs =>
      ((input_tokens : ℚ) / 1000000) * costs.input
        + ((output_tokens : ℚ) / 1000000) * costs.output
        + ((cached_input_tokens : ℚ) / 1000000) * costs.cache_read

/-- estimate_cost from src/core/token_counter.py: look the model up in
COSTS_PER_MILLION, return 0.0 when absent, otherwise the rate linear
combination rounded to six decimal places. -/
def estimate_cost (input_tokens output_tokens : ℤ) (model : String)
    (cached_input_tokens : ℤ) : ℚ :=
  match dictGet COSTS_PER_MILLION model with
  | none => 0
  | some costs =>
      pyRound6 (((input_tokens : ℚ) / 1000000) * costs.input
        + ((output_tokens : ℚ) / 1000000) * costs.output
        + ((cached_input_tokens : ℚ) / 1000000) * costs.cache_read)

theorem linear_cost_add (i o c i' o' c' : ℤ) (m : String) :
    linear_cost (i + i') (o + o') m (c + c') =
      linear_cost i o m c + linear_cost i' o' m c' := by
  unfold linear_cost
  cases dictGet COSTS_PER_MILLION m with
  | none => norm_num
  | some r => push_cast; ring

theorem estimate_cost_eq_round_linear (i o c : ℤ) (m : String) :
    estimate_cost i o m c = pyRound6 (linear_cost i o m c) := by
  unfold estimate_cost linear_cost
  cases dictGet COSTS_PER_MILLION m with
  | none => simp [pyRound6, roundHalfEven, Rat.floor]
  | some r => rfl

/-- C8 counterexample: estimate_cost is not linear in the input token
count.  At the model "gemini-1.5-flash" (whose effective input rate,
after the duplicate-key overwrite in the COSTS_PER_MILLION literal, is
0.15 USD per million tokens), 4 input tokens cost 0.0000006 USD which
rounds to 0.000001, so two calls at 4 tokens return 0.000002 in total,
while one call at 8 tokens costs 0.0000012 USD which also rounds to
0.000001. -/
theorem C8_estimate_cost_not_linear :
    estimate_cost 8 0 "gemini-1.5-flash" 0 ≠
      estimate_cost 4 0 "gemini-1.5-flash" 0 +
        estimate_cost 4 0 "gemini-1.5-flash" 0 := by
  have hrates : dictGet COSTS_PER_MILLION "gemini-1.5-flash" =
      some ⟨0.15, 0.60, 0.0375, 0.15⟩ := by rfl
  have h4 : estimate_cost 4 0 "gemini-1.5-flash" 0 = 1/1000000 := by
    rw [estimate_cost, hrates]
    norm_num [pyRound6, roundHalfEven, Rat.floor]
  have h8 : estimate_cost 8 0 "gemini-1.5-flash" 0 = 1/1000000 := by
    rw [estimate_cost, hrates]
    norm_num [pyRound6, roundHalfEven, Rat.floor]
  rw [h4, h8]
  norm_num

/-- C8 (amended): estimate_cost equals the linear combination of the
per-million-token rates for input, output and cache-read, rounded to
six decimal places — so it is linear in the token counts only before
the final rounding (the pre-rounding value linear_cost is additive) —
and it returns 0 for a model identifier not present in the pricing
table, never failing. -/
theorem C8_estimate_cost_rounded_linear (i o c i' o' c' : ℤ) (m : String) :
    estimate_cost i o m c = pyRound6 (linear_cost i o m c) ∧
      linear_cost (i + i') (o + o') m (c + c') =
        linear_cost i o m c + linear_cost i' o' m c' ∧
      (dictGet COSTS_PER_MILLION m = none → estimate_cost i o m c = 0) := by
  refine ⟨estimate_cost_eq_round_linear i o c m,
    linear_cost_add i o c i' o' c' m, ?_⟩
  intro h
  unfold estimate_cost
  rw [h]

/-- Witness for C8: the amended theorem applied at concrete inputs,
including an unpriced model, where the hypothesis holds. -/
theorem C8_estimate_cost_rounded_linear_witness :
    dictGet COSTS_PER_MILLION "made-up-model" = none ∧
      estimate_cost 10 20 "made-up-model" 30 = 0 :=
  ⟨by rfl,
    (C8_estimate_cost_rounded_linear 10 20 30 1 2 3 "made-up-model").2.2
      (by rfl)⟩

/-! ## src/memory/file_indexer.py: module inference -/

/-- Splits a character list on the path separator. -/
def splitSlashAux : List Char → List Char → List String
  | [], acc => [String.mk acc.reverse]
  | c :: t, acc =>
      if c = '/' then String.mk acc.reverse :: splitSlashAux t []
      else splitSlashAux t (c :: acc)

/-- Path segments of a relative path, as Python's Path(rel_path).parts
for relative paths: split on the separator, dropping empty segments. -/
def pathParts (rel_path : String) : List String :=
  (splitSlashAux rel_path.toList []).filter (fun s => !(s == ""))

/-- FileIndexer._detect_module: "root" for paths with fewer than two
segments; the second segment when the path starts with "src" and has at
least three segments; otherwise the first segment. -/
def detect_module (rel_path : String) : String :=
  let parts := pathParts rel_path
  if parts.length < 2 then "root"
  else if parts.getD 0 "" = "src" ∧ 3 ≤ parts.length then parts.getD 1 ""
  else parts.getD 0 ""

/-- Modelled from the spec's words, for comparison with the code (claim
C3): the module is the first path segment, except that paths rooted
under "src" skip that segment and use the next one, and single-segment
paths map to "root". -/
def detect_module_spec (rel_path : String) : String :=
  let parts := pathParts rel_path
  if parts.length ≤ 1 then "root"
  else if parts.getD 0 "" = "src" then parts.getD 1 ""
  else parts.getD 0 ""

/-- C3 counterexample: on the two-segment path "src/login.py" the code
keeps "src" as the module (the skip applies only to paths with at least
three segments), while the spec's skip-rule yields "login.py". -/
theorem C3_detect_module_counterexample :
    detect_module "src/login.py" = "src" ∧
      detect_module_spec "src/login.py" = "login.py" ∧
      detect_module "src/login.py" ≠ detect_module_spec "src/login.py" := by
  exact ⟨by rfl, by rfl, by decide⟩

/-- C3 (amended): the inferred module is the first segment of the
relative path; paths rooted under "src" with at least one directory
level below it (three or more segments) skip "src" and use the second
segment, while a file directly under "src" keeps "src" as its module;
paths with at most one segment map to "root".  In particular
src/auth/login.py maps to "auth" and src/api/users.py to "api". -/
theorem C3_detect_module_amended (p a b : String) (rest : List String) :
    ((pathParts p).length ≤ 1 → detect_module p = "root") ∧
    (pathParts p = "src" :: a :: b :: rest → detect_module p = a) ∧
    (pathParts p = ["src", a] → detect_module p = "src") ∧
    (∀ q tail, q ≠ "src" → pathParts p = q :: a :: tail →
      detect_module p = q) ∧
    detect_module "src/auth/login.py" = "auth" ∧
    detect_module "src/api/users.py" = "api" := by
  refine ⟨?_, ?_, ?_, ?_, by rfl, by rfl⟩
  · intro h
    unfold detect_module
    have : (pathParts p).length < 2 := by omega
    simp [this]
  · intro h
    unfold detect_module
    rw [h]
    simp
  · intro h
    unfold detect_module
    rw [h]
    simp
  · intro q tail hq h
    unfold detect_module
    rw [h]
    simp [hq]

/-- Witness for C3: the amended theorem applied at concrete paths, with
each hypothesis discharged by evaluation. -/
theorem C3_detect_module_amended_witness :
    pathParts "src/app/models/user.py" = ["src", "app", "models", "user.py"] ∧
      detect_module "src/app/models/user.py" = "app" ∧
      pathParts "src/login.py" = ["src", "login.py"] ∧
      detect_module "src/login.py" = "src" ∧
      pathParts "lib/util.py" = ["lib", "util.py"] ∧
      detect_module "lib/util.py" = "lib" ∧
      pathParts "main.py" = ["main.py"] ∧
      detect_module "main.py" = "root" :=
  ⟨by rfl,
    (C3_detect_module_amended "src/app/models/user.py" "app" "models"
      ["user.py"]).2.1 (by rfl),
    by rfl,
    (C3_detect_module_amended "src/login.py" "login.py" "" []).2.2.1
      (by rfl),
    by rfl,
    (C3_detect_module_amended "lib/util.py" "util.py" "" []).2.2.2.1
      "lib" [] (by simp) (by rfl),
    by rfl,
    (C3_detect_module_amended "main.py" "" "" []).1 (by rfl)⟩

/-! ## src/core/compressor.py: compress_content

The regular-expression substitutions are embedded as left-to-right
character scans with the same semantics: each non-greedy delimited
pattern removes, at the leftmost opening delimiter that has a later
closing delimiter, everything through the earliest such closer, and
scanning resumes after the removed region. -/

/-- Drops everything in l up to and including the earliest occurrence
of close; none when close never occurs (the non-greedy body then fails
to match). -/
def dropThroughClose (close : List Char) : List Char → Option (List Char)
  | [] => if close.isEmpty then some [] else none
  | l@(_ :: t) =>
      if close.isPrefixOf l then some (l.drop close.length)
      else dropThroughClose close t

/-- One pass of a single open/close delimited non-greedy removal
(the JS block comment pattern).  Fuel is the initial length; every
step consumes at least one character. -/
def stripEnclosedAux (op cl : List Char) : Nat → List Char → List Char
  | 0, l => l
  | _ + 1, [] => []
  | fuel + 1, l@(c :: t) =>
      if op.isPrefixOf l then
        match dropThroughClose cl (l.drop op.length) with
        | some rest => stripEnclosedAux op cl fuel rest
        | none => c :: stripEnclosedAux op cl fuel t
      else c :: stripEnclosedAux op cl fuel t

/-- One pass of the Python block-comment pattern, an alternation of
triple-double-quote and triple-single-quote delimited bodies tried at
each position in that order. -/
def stripTriplesAux : Nat → List Char → List Char
  | 0, l => l
  | _ + 1, [] => []
  | fuel + 1, l@(c :: t) =>
      if ['\"', '\"', '\"'].isPrefixOf l then
        match dropThroughClose ['\"', '\"', '\"'] (l.drop 3) with
        | some rest => stripTriplesAux fuel rest
        | none => c :: stripTriplesAux fuel t
      else if ['\'', '\'', '\''].isPrefixOf l then
        match dropThroughClose ['\'', '\'', '\''] (l.drop 3) with
        | some rest => stripTriplesAux fuel rest
        | none => c :: stripTriplesAux fuel t
      else c :: stripTriplesAux fuel t

/-- Drops the rest of the current line, keeping the newline itself
(what substituting marker[^\n]* with the empty string does). -/
def dropRestOfLine : List Char → List Char
  | [] => []
  | c :: t => if c = '\n' then c :: t else dropRestOfLine t

/-- One pass of a line-comment removal for the given marker. -/
def stripLineAux (m : List Char) : Nat → List Char → List Char
  | 0, l => l
  | _ + 1, [] => []
  | fuel + 1, l@(c :: t) =>
      if m.isPrefixOf l then
        stripLineAux m fuel (dropRestOfLine (l.drop m.length))
      else c :: stripLineAux m fuel t

/-- Collapses every run of three or more newlines to exactly two. -/
def collapseBlankAux : Nat → List Char → List Char
  | 0, l => l
  | _ + 1, [] => []
  | fuel + 1, c :: t =>
      if c = '\n' then
        let run := t.takeWhile (fun d => d == '\n')
        let rest := t.dropWhile (fun d => d == '\n')
        if 3 ≤ run.length + 1 then
          '\n' :: '\n' :: collapseBlankAux fuel rest
        else c :: (run ++ collapseBlankAux fuel rest)
      else c :: collapseBlankAux fuel t

/-- Python str.strip() whitespace. -/
def isPySpace (c : Char) : Bool :=
  c == ' ' || c == '\t' || c == '\n' || c == '\r' ||
    c == '\x0b' || c == '\x0c'

/-- Python str.strip(). -/
def pyStrip (l : List Char) : List Char :=
  ((l.dropWhile isPySpace).reverse.dropWhile isPySpace).reverse

/-- compress_content from src/core/compressor.py: strip triple-quoted
blocks and JS block comments, then (aggressive) hash and slash-slash
line comments, collapse runs of three or more blank lines to two, and
finally strip outer whitespace and append one newline. -/
def compress_content (text : String) (aggressive : Bool) : String :=
  let r0 := text.toList
  let r1 := stripTriplesAux r0.length r0
  let r2 := stripEnclosedAux ['/', '*'] ['*', '/'] r1.length r1
  let r3 :=
    if aggressive then
      let a := stripLineAux ['#'] r2.length r2
      stripLineAux ['/', '/'] a.length a
    else r2
  let r4 := collapseBlankAux r3.length r3
  String.mk (pyStrip r4 ++ ['\n'])

/-! ## src/memory/context_finder.py: data model and import expansion -/

/-- One value of the files mapping of the persisted index
(src/memory/file_indexer.py writes these keys for every file).  A
record created by a partial re-index of a previously unindexed file
carries only token_count in the JSON; such missing keys are modelled
by the defaults every read site supplies ("" / empty list). -/
structure FileRec where
  purpose : String
  module : String
  imports : List String
  exports : List String
  token_count : Nat
  last_modified : String
  summary : String
deriving DecidableEq, Repr

/-- The persisted codebase index (file-index.json). -/
structure Index where
  indexed_at : String
  total_files : Nat
  total_tokens_if_full_read : Nat
  files : List (String × FileRec)
  modules : List (String × List String)
deriving DecidableEq, Repr

/-- Python substring containment needle in hay, over characters. -/
def containsSub (hay needle : List Char) : Bool :=
  match hay with
  | [] => needle.isEmpty
  | _ :: t => if needle.isPrefixOf hay then true else containsSub t needle

/-- Python str.replace: replace non-overlapping occurrences of pat,
scanning left to right (pat nonempty in every use in this file). -/
def replaceAux (pat rep : List Char) : Nat → List Char → List Char
  | 0, l => l
  | _ + 1, [] => []
  | fuel + 1, l@(c :: t) =>
      if !pat.isEmpty && pat.isPrefixOf l then
        rep ++ replaceAux pat rep fuel (l.drop pat.length)
      else c :: replaceAux pat rep fuel t

/-- Python s.replace(pat, rep) for strings. -/
def pyReplace (s pat rep : String) : String :=
  String.mk (replaceAux pat.toList rep.toList s.toList.length s.toList)

/-- The import-target test of build_context:
imp.replace(".", "/") in idx_path or imp in idx_path. -/
def importMatch (imp idx_path : String) : Bool :=
  containsSub idx_path.toList (pyReplace imp "." "/").toList ||
    containsSub idx_path.toList imp.toList

/-- The inner scan of build_context's expansion loop: the first index
path that textually contains the import target (the break after the
first match). -/
def findImportTarget (files_in_index : List (String × FileRec))
    (imp : String) : Option String :=
  (files_in_index.find? (fun e => importMatch imp e.1)).map (fun e => e.1)

/-- Adding one element to a Python set (modelled as a dup-free list in
insertion order; iteration order of a Python set is abstracted, and
every theorem about the working set is stated up to membership). -/
def setAdd (s : List String) (x : String) : List String :=
  if s.contains x then s else s ++ [x]

/-- set(xs) for a list of strings. -/
def pySetOfList (xs : List String) : List String :=
  xs.foldl setAdd []

/-- The paths one file of the snapshot contributes: for each recorded
target it imports, the first matching index path. -/
def oneHopAdds (files_in_index : List (String × FileRec))
    (fpath : String) : List String :=
  match dictGet files_in_index fpath with
  | none => []
  | some r => r.imports.filterMap (findImportTarget files_in_index)

/-- The files_to_load set of build_context after the one-level import
expansion: start from set(analysis.affected_files), iterate over that
snapshot, and add each import's first match. -/
def files_to_load (files_in_index : List (String × FileRec))
    (affected_files : List String) : List String :=
  let init := pySetOfList affected_files
  init.foldl (fun acc fpath => (oneHopAdds files_in_index fpath).foldl setAdd acc)
    init

theorem setAdd_mem (s : List String) (x y : String) :
    y ∈ setAdd s x ↔ y ∈ s ∨ y = x := by
  unfold setAdd
  by_cases h : x ∈ s
  · have hb : s.contains x = true := by simpa using h
    rw [if_pos hb]
    constructor
    · exact fun hy => Or.inl hy
    · rintro (hy | rfl)
      · exact hy
      · exact h
  · have hb : s.contains x = false := by simpa using h
    rw [if_neg (by simp [hb]; exact h)]
    simp

theorem foldl_setAdd_mem (xs s : List String) (y : String) :
    y ∈ xs.foldl setAdd s ↔ y ∈ s ∨ y ∈ xs := by
  induction xs generalizing s with
  | nil => simp
  | cons x xs ih =>
      rw [List.foldl_cons, ih, setAdd_mem]
      constructor
      · rintro ((hy | rfl) | hy)
        · exact Or.inl hy
        · exact Or.inr (by simp)
        · exact Or.inr (by simp [hy])
      · rintro (hy | hy)
        · exact Or.inl (Or.inl hy)
        · rcases List.mem_cons.mp hy with rfl | hy
          · exact Or.inl (Or.inr rfl)
          · exact Or.inr hy

theorem pySetOfList_mem (xs : List String) (y : String) :
    y ∈ pySetOfList xs ↔ y ∈ xs := by
  unfold pySetOfList
  rw [foldl_setAdd_mem]
  simp

theorem foldl_expand_mem (g : String → List String) (l s : List String)
    (y : String) :
    y ∈ l.foldl (fun acc f => (g f).foldl setAdd acc) s ↔
      y ∈ s ∨ ∃ f ∈ l, y ∈ g f := by
  induction l generalizing s with
  | nil => simp
  | cons f l ih =>
      rw [List.foldl_cons, ih, foldl_setAdd_mem]
      constructor
      · rintro ((hy | hy) | ⟨f', hf', hy⟩)
        · exact Or.inl hy
        · exact Or.inr ⟨f, by simp, hy⟩
        · exact Or.inr ⟨f', by simp [hf'], hy⟩
      · rintro (hy | ⟨f', hf', hy⟩)
        · exact Or.inl (Or.inl hy)
        · rcases List.mem_cons.mp hf' with rfl | hf'
          · exact Or.inl (Or.inr hy)
          · exact Or.inr ⟨f', hf', hy⟩

theorem oneHopAdds_mem (files_in_index : List (String × FileRec))
    (fpath y : String) :
    y ∈ oneHopAdds files_in_index fpath ↔
      ∃ r, dictGet files_in_index fpath = some r ∧
        ∃ imp ∈ r.imports, findImportTarget files_in_index imp = some y := by
  unfold oneHopAdds
  cases h : dictGet files_in_index fpath with
  | none => simp
  | some r =>
      rw [List.mem_filterMap]
      constructor
      · rintro ⟨imp, himp, hfind⟩
        exact ⟨r, rfl, imp, himp, hfind⟩
      · rintro ⟨r', hr', imp, himp, hfind⟩
        cases hr'
        exact ⟨imp, himp, hfind⟩

/-- C1: the working file set of build_context starts as exactly the
intent's affected file paths, and the one-level import expansion adds,
for every file of that initial set, at most the first index path whose
text contains each recorded import target (dots replaced by slashes, or
verbatim); files added by the expansion are never themselves expanded,
so membership is: an affected file, or the first match of an import of
an affected file. -/
theorem C1_files_to_load_one_hop (files_in_index : List (String × FileRec))
    (affected_files : List String) (p : String) :
    p ∈ files_to_load files_in_index affected_files ↔
      p ∈ affected_files ∨
        ∃ f ∈ affected_files, ∃ r, dictGet files_in_index f = some r ∧
          ∃ imp ∈ r.imports, findImportTarget files_in_index imp = some p := by
  unfold files_to_load
  rw [foldl_expand_mem, pySetOfList_mem]
  constructor
  · rintro (hp | ⟨f, hf, hp⟩)
    · exact Or.inl hp
    · rcases (oneHopAdds_mem files_in_index f p).mp hp with ⟨r, hr, himp⟩
      exact Or.inr ⟨f, (pySetOfList_mem affected_files f).mp hf, r, hr, himp⟩
  · rintro (hp | ⟨f, hf, r, hr, himp⟩)
    · exact Or.inl hp
    · refine Or.inr ⟨f, (pySetOfList_mem affected_files f).mpr hf, ?_⟩
      exact (oneHopAdds_mem files_in_index f p).mpr ⟨r, hr, himp⟩

/-! ## src/memory/memory_manager.py

MemoryManager._data is a raw JSON dict in Python; it is modelled as a
JSON value.  The json library's serialisation (json.dump / json.loads)
is an external collaborator: a successfully parsed file is modelled as
the stored value itself, and an unparsable file by an explicit invalid
state carrying the raw text. -/

/-- A JSON value (numbers restricted to integers: every number the
memory store writes is a token count or similar integer). -/
inductive JValue where
  | jnull
  | jbool (b : Bool)
  | jint (n : Int)
  | jstr (s : String)
  | jarr (xs : List JValue)
  | jobj (kvs : List (String × JValue))

/-- Python dict .get(k, dflt) on a JSON object (every call site in the
modelled code applies it to a dict). -/
def jgetD (j : JValue) (k : String) (dflt : JValue) : JValue :=
  match j with
  | .jobj kvs => (dictGet kvs k).getD dflt
  | _ => dflt

/-- Python dict assignment j[k] = v on a JSON object. -/
def jset (j : JValue) (k : String) (v : JValue) : JValue :=
  match j with
  | .jobj kvs => .jobj (dictSet kvs k v)
  | other => other

/-- Python k in j on a JSON object. -/
def jhas (j : JValue) (k : String) : Bool :=
  match j with
  | .jobj kvs => dictHas kvs k
  | _ => false

/-- The modules field as every read site accesses it:
self._data.get("modules", \x7b\x7d). -/
def memModules (d : JValue) : JValue := jgetD d "modules" (.jobj [])

/-- The decisions field: self._data.get("decisions", []). -/
def memDecisions (d : JValue) : JValue := jgetD d "decisions" (.jarr [])

/-- The change_history field: self._data.get("change_history", []). -/
def memChangeHistory (d : JValue) : JValue :=
  jgetD d "change_history" (.jarr [])

/-- The state of the memory store on disk: the memory.json path either
does not exist, holds text that does not parse as JSON, or holds a
parsed JSON value; plus the content of the memory.json.bak path. -/
inductive MemFile where
  | absent
  | invalid (raw : String)
  | valid (data : JValue)

/-- On-disk state seen by one MemoryManager. -/
structure MMState where
  memfile : MemFile
  backup : Option String

/-- MemoryManager._default_memory: the blank record (timestamps are
supplied as the parameter now; the project name is the root directory
name). -/
def default_memory (project_name now : String) : JValue :=
  .jobj [("project_name", .jstr project_name),
    ("created_at", .jstr now),
    ("last_updated", .jstr now),
    ("stack", .jobj [("language", .jstr ""), ("frontend", .jnull),
      ("backend", .jnull), ("database", .jnull), ("auth", .jnull),
      ("hosting", .jnull)]),
    ("ai_target", .jstr "both"),
    ("modules", .jobj []),
    ("decisions", .jarr []),
    ("change_history", .jarr [])]

/-- MemoryManager.load: an absent file yields the default record
without persisting anything; an unparsable file is renamed aside to the
backup path (its raw content preserved there, the memory path left
absent) and the default record is returned; a parsed file is returned
as is.  Total by construction: every branch returns a record. -/
def MemoryManager.load (st : MMState) (project_name now : String) :
    JValue × MMState :=
  match st.memfile with
  | .absent => (default_memory project_name now, st)
  | .invalid raw => (default_memory project_name now, ⟨.absent, some raw⟩)
  | .valid d => (d, st)

/-- MemoryManager.save: stamp last_updated, then atomically replace the
memory file with the record. -/
def MemoryManager.save (st : MMState) (data : JValue) (now : String) :
    MMState :=
  ⟨.valid (jset data "last_updated" (.jstr now)), st.backup⟩

/-- The affects list of a decision: set(d.get("affects", [])), whose
elements are strings in every modelled flow. -/
def affectsOf (d : JValue) : List String :=
  match jgetD d "affects" (.jarr []) with
  | .jarr xs => xs.filterMap (fun x => match x with
      | .jstr s => some s
      | _ => none)
  | _ => []

/-- Nonempty intersection of two string sets. -/
def setIntersects (a b : List String) : Bool :=
  a.any (fun x => b.contains x)

/-- MemoryManager.get_decisions_for_modules: the decisions whose
affects list intersects the given module names. -/
def get_decisions_for_modules (mem : JValue) (module_names : List String) :
    List JValue :=
  match memDecisions mem with
  | .jarr ds => ds.filter (fun d => setIntersects module_names (affectsOf d))
  | _ => []

/-- MemoryManager.get_module: self._data.get("modules", ...).get(name). -/
def get_module (mem : JValue) (name : String) : Option JValue :=
  match memModules mem with
  | .jobj kvs => dictGet kvs name
  | _ => none

/-- The ChangeEvent dict appended by MemoryManager.add_change. -/
def changeEventObj (now description : String) (files_changed : List String)
    (tokens_used tokens_saved : Int) : JValue :=
  .jobj [("date", .jstr now),
    ("description", .jstr description),
    ("files_changed", .jarr (files_changed.map (fun f => .jstr f))),
    ("tokens_used", .jint tokens_used),
    ("tokens_saved", .jint tokens_saved)]

/-- MemoryManager.add_change: create the change_history list if the key
is missing, then append the event (appending mutates the stored list,
which in every modelled flow is a JSON array). -/
def add_change (mem : JValue) (now description : String)
    (files_changed : List String) (tokens_used tokens_saved : Int) :
    JValue :=
  let base := if jhas mem "change_history" then mem
    else jset mem "change_history" (.jarr [])
  match jgetD base "change_history" (.jarr []) with
  | .jarr hs => jset base "change_history"
      (.jarr (hs ++ [changeEventObj now description files_changed
        tokens_used tokens_saved]))
  | _ => base

/-! ## src/memory/context_finder.py: build_context -/

/-- ChangeAnalysis from src/memory/context_finder.py. -/
structure ChangeAnalysis where
  change_type : String
  affected_modules : List String
  affected_files : List String
  needs_new_files : Bool
  new_files_needed : List String
  context_needed : List String
  estimated_complexity : String
  token_estimate : Int
deriving DecidableEq, Repr

/-- ContextPackage from src/memory/context_finder.py. -/
structure ContextPackage where
  files : List (String × String)
  decisions : List JValue
  module_summaries : List (String × String)
  total_tokens : Nat
  analysis : ChangeAnalysis

/-- The observable state of the project tree on disk: a path missing
from the list does not exist; a path mapped to none exists but raises
OSError when read; a path mapped to some c reads as content c. -/
abbrev FileSys := List (String × Option String)

/-- The exists-then-read pattern of every loader: the content when the
path exists and is readable. -/
def readFile (fs : FileSys) (p : String) : Option String :=
  match dictGet fs p with
  | some (some c) => some c
  | _ => none

/-- The content-loading loop of build_context: look each path up on
disk (a missing file, or an unreadable one, is silently skipped), store
its content and add its token count to the running total. -/
def loadFiles (tok : String → Nat) (fs : FileSys)
    (paths : List String) : List (String × String) × Nat :=
  paths.foldl (fun st fpath =>
    match readFile fs fpath with
    | none => st
    | some content => (dictSet st.1 fpath content, st.2 + tok content))
    ([], 0)

/-- One line of a module summary:
- mf: purpose (token_count tokens), with the read-site defaults when
the file is unknown to the index. -/
def module_summary_line (files_in_index : List (String × FileRec))
    (mf : String) : String :=
  match dictGet files_in_index mf with
  | some r =>
      "- " ++ mf ++ ": " ++ r.purpose ++ " (" ++
        toString r.token_count ++ " tokens)"
  | none => "- " ++ mf ++ ": no description (0 tokens)"

/-- The module-summary loop of build_context. -/
def buildModuleSummaries (index : Index) (mods : List String) :
    List (String × String) :=
  mods.foldl (fun acc mod_name =>
    let mod_files := (dictGet index.modules mod_name).getD []
    let summary_parts := mod_files.map (module_summary_line index.files)
    dictSet acc mod_name
      (if summary_parts.isEmpty then "no files"
       else String.intercalate "\n" summary_parts)) []

/-- ContextFinder.build_context: working set from the intent's affected
files plus one-level import expansion, contents loaded from disk with a
running token total, module summaries and relevant decisions attached,
and a single compression pass over every loaded content when the total
exceeds the threshold, with the total recomputed from the compressed
contents. -/
def build_context (tok : String → Nat) (index : Index) (mem : JValue)
    (fs : FileSys) (analysis : ChangeAnalysis) :
    ContextPackage :=
  let ftl := files_to_load index.files analysis.affected_files
  let loaded := loadFiles tok fs ftl
  let module_summaries := buildModuleSummaries index analysis.affected_modules
  let decisions := get_decisions_for_modules mem analysis.affected_modules
  let final :=
    if CONTEXT_TOKEN_THRESHOLD < loaded.2 then
      let compressed :=
        loaded.1.map (fun kv => (kv.1, compress_content kv.2 true))
      (compressed, (compressed.map (fun kv => tok kv.2)).sum)
    else loaded
  ⟨final.1, decisions, module_summaries, final.2, analysis⟩

theorem dictSet_of_not_has {α : Type} (d : List (String × α)) (k : String)
    (v : α) (h : dictHas d k = false) : dictSet d k v = d ++ [(k, v)] := by
  induction d with
  | nil => rfl
  | cons e t ih =>
      by_cases he : (e.1 == k) = true
      · exfalso
        unfold dictHas dictGet at h
        rw [if_pos he] at h
        simp at h
      · have he' : (e.1 == k) = false := by
          cases hb : (e.1 == k) with
          | true => exact absurd hb he
          | false => rfl
        unfold dictHas dictGet at h
        rw [if_neg (by simp [he'])] at h
        simp only [dictSet, he', Bool.false_eq_true, if_false, List.cons_append]
        rw [ih h]

theorem dictHas_eq_false_iff {α : Type} (d : List (String × α)) (k : String) :
    dictHas d k = false ↔ ∀ v, ¬ (k, v) ∈ d := by
  induction d with
  | nil => simp [dictHas, dictGet]
  | cons e t ih =>
      by_cases he : (e.1 == k) = true
      · have hek : e.1 = k := by simpa using he
        constructor
        · intro h
          exfalso
          unfold dictHas dictGet at h
          rw [if_pos he] at h
          simp at h
        · intro h
          exfalso
          exact h e.2 (by rw [← hek]; simp)
      · have he' : (e.1 == k) = false := by
          cases hb : (e.1 == k) with
          | true => exact absurd hb he
          | false => rfl
        have hne : e.1 ≠ k := by simpa using he'
        have step : dictHas (e :: t) k = dictHas t k := by
          simp [dictHas, dictGet, he']
        rw [step, ih]
        constructor
        · intro h v hv
          rcases List.mem_cons.mp hv with hv | hv
          · exact hne (by rw [← hv])
          · exact h v hv
        · intro h v hv
          exact h v (by simp [hv])

theorem loadFiles_invariant (tok : String → Nat)
    (fs : FileSys) (paths : List String)
    (acc : List (String × String)) (n : Nat)
    (hnd : paths.Nodup)
    (hdisj : ∀ p ∈ paths, dictHas acc p = false)
    (hsum : n = (acc.map (fun kv => tok kv.2)).sum)
    (hmem : ∀ p c, (p, c) ∈ acc → readFile fs p = some c) :
    (((paths.foldl (fun st fpath =>
        match readFile fs fpath with
        | none => st
        | some content => (dictSet st.1 fpath content, st.2 + tok content))
        (acc, n))).2 =
      (((paths.foldl (fun st fpath =>
        match readFile fs fpath with
        | none => st
        | some content => (dictSet st.1 fpath content, st.2 + tok content))
        (acc, n))).1.map (fun kv => tok kv.2)).sum) ∧
    (∀ p c, (p, c) ∈ ((paths.foldl (fun st fpath =>
        match readFile fs fpath with
        | none => st
        | some content => (dictSet st.1 fpath content, st.2 + tok content))
        (acc, n))).1 → readFile fs p = some c) := by
  induction paths generalizing acc n with
  | nil => exact ⟨hsum, hmem⟩
  | cons p rest ih =>
      have hnd' : rest.Nodup := (List.nodup_cons.mp hnd).2
      have hpnotin : ¬ p ∈ rest := (List.nodup_cons.mp hnd).1
      rw [List.foldl_cons]
      cases hfs : readFile fs p with
      | none =>
          exact ih acc n hnd' (fun q hq => hdisj q (by simp [hq])) hsum hmem
      | some content =>
          have hfresh : dictHas acc p = false := hdisj p (by simp)
          have hset : dictSet acc p content = acc ++ [(p, content)] :=
            dictSet_of_not_has acc p content hfresh
          refine ih (dictSet acc p content) (n + tok content) hnd' ?_ ?_ ?_
          · intro q hq
            rw [hset]
            rcases (dictHas_eq_false_iff acc q).mp
              (hdisj q (by simp [hq])) with h
            rw [dictHas_eq_false_iff]
            intro v hv
            rcases List.mem_append.mp hv with hv | hv
            · exact (dictHas_eq_false_iff acc q).mp (hdisj q (by simp [hq])) v hv
            · simp at hv
              exact hpnotin (by rw [← hv.1]; exact hq)
          · rw [hset]
            simp [hsum]
          · intro q c hqc
            rw [hset] at hqc
            rcases List.mem_append.mp hqc with hqc | hqc
            · exact hmem q c hqc
            · simp at hqc
              rw [hqc.1, hqc.2]
              exact hfs

theorem loadFiles_sum_and_src (tok : String → Nat)
    (fs : FileSys) (paths : List String)
    (hnd : paths.Nodup) :
    (loadFiles tok fs paths).2 =
        ((loadFiles tok fs paths).1.map (fun kv => tok kv.2)).sum ∧
      ∀ p c, (p, c) ∈ (loadFiles tok fs paths).1 →
        readFile fs p = some c := by
  have h := loadFiles_invariant tok fs paths [] 0 hnd
    (by intro p hp; rfl) (by simp) (by intro p c hc; simp at hc)
  exact h

theorem setAdd_nodup (s : List String) (x : String) (h : s.Nodup) :
    (setAdd s x).Nodup := by
  unfold setAdd
  by_cases hx : x ∈ s
  · have hb : s.contains x = true := by simpa using hx
    rw [if_pos hb]
    exact h
  · have hb : s.contains x = false := by simpa using hx
    rw [if_neg (by simp [hb]; exact hx)]
    simpa [List.nodup_append] using ⟨h, hx⟩

theorem foldl_setAdd_nodup (xs s : List String) (h : s.Nodup) :
    (xs.foldl setAdd s).Nodup := by
  induction xs generalizing s with
  | nil => exact h
  | cons x xs ih => exact ih (setAdd s x) (setAdd_nodup s x h)

theorem foldl_expand_nodup (g : String → List String) (l s : List String)
    (h : s.Nodup) :
    (l.foldl (fun acc f => (g f).foldl setAdd acc) s).Nodup := by
  induction l generalizing s with
  | nil => exact h
  | cons f l ih =>
      rw [List.foldl_cons]
      exact ih ((g f).foldl setAdd s) (foldl_setAdd_nodup (g f) s h)

theorem files_to_load_nodup (files_in_index : List (String × FileRec))
    (affected_files : List String) :
    (files_to_load files_in_index affected_files).Nodup := by
  unfold files_to_load
  exact foldl_expand_nodup (oneHopAdds files_in_index)
    (pySetOfList affected_files) (pySetOfList affected_files)
    (foldl_setAdd_nodup affected_files [] List.nodup_nil)

/-- C2: when the running total of the loaded contents exceeds the
threshold, build_context applies the compression pass exactly once to
every loaded file's content — each returned content is the compression
of the content read from disk, so no file is compressed twice — and
total_tokens is recomputed as the sum of the token counts of the
compressed contents; when the total is at or below the threshold both
the contents and the total are returned unchanged. -/
theorem C2_build_context_compress_once (tok : String → Nat) (index : Index)
    (mem : JValue) (fs : FileSys) (analysis : ChangeAnalysis) :
    (CONTEXT_TOKEN_THRESHOLD <
        (loadFiles tok fs
          (files_to_load index.files analysis.affected_files)).2 →
      (build_context tok index mem fs analysis).files =
          (loadFiles tok fs
            (files_to_load index.files analysis.affected_files)).1.map
            (fun kv => (kv.1, compress_content kv.2 true)) ∧
        (build_context tok index mem fs analysis).total_tokens =
          ((build_context tok index mem fs analysis).files.map
            (fun kv => tok kv.2)).sum ∧
        ∀ p c', (p, c') ∈ (build_context tok index mem fs analysis).files →
          ∃ c, readFile fs p = some c ∧ c' = compress_content c true) ∧
    ((loadFiles tok fs
        (files_to_load index.files analysis.affected_files)).2 ≤
        CONTEXT_TOKEN_THRESHOLD →
      (build_context tok index mem fs analysis).files =
          (loadFiles tok fs
            (files_to_load index.files analysis.affected_files)).1 ∧
        (build_context tok index mem fs analysis).total_tokens =
          (loadFiles tok fs
            (files_to_load index.files analysis.affected_files)).2) := by
  have hkey : build_context tok index mem fs analysis =
      (if CONTEXT_TOKEN_THRESHOLD <
          (loadFiles tok fs
            (files_to_load index.files analysis.affected_files)).2 then
        ContextPackage.mk
          ((loadFiles tok fs
            (files_to_load index.files analysis.affected_files)).1.map
            (fun kv => (kv.1, compress_content kv.2 true)))
          (get_decisions_for_modules mem analysis.affected_modules)
          (buildModuleSummaries index analysis.affected_modules)
          (((loadFiles tok fs
            (files_to_load index.files analysis.affected_files)).1.map
            (fun kv => (kv.1, compress_content kv.2 true))).map
              (fun kv => tok kv.2)).sum
          analysis
      else
        ContextPackage.mk
          (loadFiles tok fs
            (files_to_load index.files analysis.affected_files)).1
          (get_decisions_for_modules mem analysis.affected_modules)
          (buildModuleSummaries index analysis.affected_modules)
          (loadFiles tok fs
            (files_to_load index.files analysis.affected_files)).2
          analysis) := by
    unfold build_context
    dsimp only
    by_cases h : CONTEXT_TOKEN_THRESHOLD <
        (loadFiles tok fs
          (files_to_load index.files analysis.affected_files)).2
    · rw [if_pos h, if_pos h]
    · rw [if_neg h, if_neg h]
  constructor
  · intro hover
    rw [hkey, if_pos hover]
    refine ⟨rfl, rfl, ?_⟩
    intro p c' hpc
    rcases List.mem_map.mp hpc with ⟨⟨q, c⟩, hq, heq⟩
    have hsrc := (loadFiles_sum_and_src tok fs
      (files_to_load index.files analysis.affected_files)
      (files_to_load_nodup index.files analysis.affected_files)).2
    have hq' := hsrc q c hq
    simp only [Prod.mk.injEq] at heq
    exact ⟨c, by rw [← heq.1]; exact hq', heq.2.symm⟩
  · intro hunder
    have hnot : ¬ CONTEXT_TOKEN_THRESHOLD <
        (loadFiles tok fs
          (files_to_load index.files analysis.affected_files)).2 := by
      omega
    rw [hkey, if_neg hnot]
    exact ⟨rfl, rfl⟩

/-- Witness for C2: both branches applied at concrete inputs.  With a
constant token counter at 3000 one loaded file exceeds the threshold;
with a counter at 5 it does not. -/
theorem C2_build_context_compress_once_witness :
    (CONTEXT_TOKEN_THRESHOLD <
        (loadFiles (fun _ => 3000) [("a.py", some "x = 1\n# note\n")]
          (files_to_load [] ["a.py"])).2 ∧
      (build_context (fun _ => 3000)
          ⟨"", 0, 0, [], []⟩ (.jobj []) [("a.py", some "x = 1\n# note\n")]
          ⟨"feature", [], ["a.py"], false, [], [], "simple", 0⟩).files =
        (loadFiles (fun _ => 3000) [("a.py", some "x = 1\n# note\n")]
          (files_to_load [] ["a.py"])).1.map
          (fun kv => (kv.1, compress_content kv.2 true))) ∧
    ((loadFiles (fun _ => 5) [("a.py", some "x = 1\n# note\n")]
        (files_to_load [] ["a.py"])).2 ≤ CONTEXT_TOKEN_THRESHOLD ∧
      (build_context (fun _ => 5)
          ⟨"", 0, 0, [], []⟩ (.jobj []) [("a.py", some "x = 1\n# note\n")]
          ⟨"feature", [], ["a.py"], false, [], [], "simple", 0⟩).total_tokens =
        (loadFiles (fun _ => 5) [("a.py", some "x = 1\n# note\n")]
          (files_to_load [] ["a.py"])).2) :=
  ⟨⟨by decide,
    ((C2_build_context_compress_once (fun _ => 3000)
      ⟨"", 0, 0, [], []⟩ (.jobj []) [("a.py", some "x = 1\n# note\n")]
      ⟨"feature", [], ["a.py"], false, [], [], "simple", 0⟩).1
      (by decide)).1⟩,
   ⟨by decide,
    ((C2_build_context_compress_once (fun _ => 5)
      ⟨"", 0, 0, [], []⟩ (.jobj []) [("a.py", some "x = 1\n# note\n")]
      ⟨"feature", [], ["a.py"], false, [], [], "simple", 0⟩).2
      (by decide)).2⟩⟩

/-! ## src/memory/context_finder.py: analyze_change

call_ai (src/ai/provider.py) is the external-service boundary: it
returns a parsed JSON dict or None on decode failure.  It is abstracted
as an oracle from the user message to Option JValue (the stage, system
prompt and provider are the same constants in both calls).  The
json.dumps serialisation of the index summary is likewise abstracted as
the index_summary input string. -/

/-- The JSON schema text embedded in both prompts. -/
def CHANGE_SCHEMA : String :=
  "\x7b\n  \"change_type\": \"feature | bugfix | refactor | config | style\",\n  \"affected_modules\": [\"auth\", \"api\"],\n  \"affected_files\": [\"src/auth/login.py\", \"src/api/users.py\"],\n  \"needs_new_files\": true,\n  \"new_files_needed\": [\"src/auth/forgot_password.py\"],\n  \"context_needed\": [\"auth module summary\", \"user model\"],\n  \"estimated_complexity\": \"trivial | simple | moderate | complex\",\n  \"token_estimate\": 450\n\x7d"

/-- The first attempt's user message. -/
def analyze_user_message (description index_summary : String) : String :=
  "Change request: " ++ description ++ "\n\n" ++
    "Available project structure:\n" ++ index_summary ++ "\n\n" ++
    "Respond ONLY with JSON matching this schema:\n" ++ CHANGE_SCHEMA

/-- The retry's stricter user message. -/
def analyze_retry_message (description index_summary : String) : String :=
  "Change request: " ++ description ++ "\n\n" ++
    "Available project structure:\n" ++ index_summary ++ "\n\n" ++
    "CRITICAL: Valid JSON only, no markdown.\n\n" ++
    "Schema:\n" ++ CHANGE_SCHEMA

/-- String field of a JSON dict with a default
(data.get(k, dflt), which holds a string in every modelled flow). -/
def jStrD (j : JValue) (k : String) (dflt : String) : String :=
  match jgetD j k (.jstr dflt) with
  | .jstr s => s
  | _ => dflt

/-- String-list field of a JSON dict defaulting to []. -/
def jStrListD (j : JValue) (k : String) : List String :=
  match jgetD j k (.jarr []) with
  | .jarr xs => xs.filterMap (fun x => match x with
      | .jstr s => some s
      | _ => none)
  | _ => []

/-- Bool field of a JSON dict with a default. -/
def jBoolD (j : JValue) (k : String) (dflt : Bool) : Bool :=
  match jgetD j k (.jbool dflt) with
  | .jbool b => b
  | _ => dflt

/-- Int field of a JSON dict with a default. -/
def jIntD (j : JValue) (k : String) (dflt : Int) : Int :=
  match jgetD j k (.jint dflt) with
  | .jint n => n
  | _ => dflt

/-- ChangeAnalysis.from_dict: every field read with data.get and the
source's defaults. -/
def ChangeAnalysis.from_dict (data : JValue) : ChangeAnalysis :=
  ⟨jStrD data "change_type" "feature",
    jStrListD data "affected_modules",
    jStrListD data "affected_files",
    jBoolD data "needs_new_files" false,
    jStrListD data "new_files_needed",
    jStrListD data "context_needed",
    jStrD data "estimated_complexity" "simple",
    jIntD data "token_estimate" 0⟩

/-- ContextFinder.analyze_change: first call with the normal message;
when unparsable (None), exactly one retry with the stricter message;
when that is also unparsable the cycle fails with the classification
error. -/
def analyze_change (oracle : String → Option JValue)
    (description index_summary : String) : Except String ChangeAnalysis :=
  match oracle (analyze_user_message description index_summary) with
  | some data => .ok (ChangeAnalysis.from_dict data)
  | none =>
      match oracle (analyze_retry_message description index_summary) with
      | some data => .ok (ChangeAnalysis.from_dict data)
      | none => .error "Failed to parse change analysis as JSON after retry."

theorem containsSub_suffix (a b : List Char) :
    containsSub (a ++ b) b = true := by
  induction a with
  | nil =>
      cases b with
      | nil => rfl
      | cons c t =>
          have hpre : (c :: t).isPrefixOf (c :: t) = true := by
            simp [List.isPrefixOf_iff_prefix]
          simp [containsSub, hpre]
  | cons x a ih =>
      rw [List.cons_append]
      unfold containsSub
      by_cases h : b.isPrefixOf (x :: (a ++ b)) = true
      · simp [h]
      · simp [h, ih]

/-- C6: analyze_change retries exactly once.  When the first call
parses, its result becomes the ChangeAnalysis; when the first is
unparsable and the retry parses, the retry's result is returned; when
both are unparsable the cycle fails with the classification error.
The outcome depends on the oracle only at the two messages (no third
call), the retry message differs from the first and restates the
required output shape (it contains the schema text). -/
theorem C6_analyze_change_bounded_retry (oracle : String → Option JValue)
    (description index_summary : String) :
    (∀ d, oracle (analyze_user_message description index_summary) = some d →
      analyze_change oracle description index_summary =
        .ok (ChangeAnalysis.from_dict d)) ∧
    (∀ d, oracle (analyze_user_message description index_summary) = none →
      oracle (analyze_retry_message description index_summary) = some d →
      analyze_change oracle description index_summary =
        .ok (ChangeAnalysis.from_dict d)) ∧
    (oracle (analyze_user_message description index_summary) = none →
      oracle (analyze_retry_message description index_summary) = none →
      analyze_change oracle description index_summary =
        .error "Failed to parse change analysis as JSON after retry.") ∧
    (∀ oracle2 : String → Option JValue,
      oracle2 (analyze_user_message description index_summary) =
        oracle (analyze_user_message description index_summary) →
      oracle2 (analyze_retry_message description index_summary) =
        oracle (analyze_retry_message description index_summary) →
      analyze_change oracle2 description index_summary =
        analyze_change oracle description index_summary) ∧
    analyze_retry_message description index_summary ≠
      analyze_user_message description index_summary ∧
    containsSub
      (analyze_retry_message description index_summary).toList
      CHANGE_SCHEMA.toList = true := by
  refine ⟨?_, ?_, ?_, ?_, ?_, ?_⟩
  · intro d h
    unfold analyze_change
    rw [h]
  · intro d h1 h2
    unfold analyze_change
    rw [h1, h2]
  · intro h1 h2
    unfold analyze_change
    rw [h1, h2]
  · intro oracle2 h1 h2
    unfold analyze_change
    rw [h1, h2]
  · intro h
    have hlen := congrArg String.length h
    simp only [analyze_user_message, analyze_retry_message,
      String.length_append] at hlen
    have e1 : ("CRITICAL: Valid JSON only, no markdown.\n\n").length = 41 := rfl
    have e2 : ("Schema:\n").length = 8 := rfl
    have e3 :
        ("Respond ONLY with JSON matching this schema:\n").length = 45 := rfl
    rw [e1, e2, e3] at hlen
    omega
  · have key : ∀ x : String,
        containsSub (x ++ CHANGE_SCHEMA).data CHANGE_SCHEMA.data = true := by
      intro x
      rw [String.data_append]
      exact containsSub_suffix _ _
    exact key ("Change request: " ++ description ++ "\n\n" ++
      "Available project structure:\n" ++ index_summary ++ "\n\n" ++
      "CRITICAL: Valid JSON only, no markdown.\n\n" ++ "Schema:\n")

/-- Witness for C6: a concrete always-unparsable oracle fails with the
classification error after the retry, and a first-try-parsable oracle
succeeds. -/
theorem C6_analyze_change_bounded_retry_witness :
    ((fun _ => (none : Option JValue)) (analyze_user_message "add login" "s")
        = none ∧
      (fun _ => (none : Option JValue))
        (analyze_retry_message "add login" "s") = none ∧
      analyze_change (fun _ => none) "add login" "s" =
        .error "Failed to parse change analysis as JSON after retry.") ∧
    analyze_change (fun _ => some (.jobj [("change_type", .jstr "bugfix")]))
        "add login" "s" =
      .ok (ChangeAnalysis.from_dict (.jobj [("change_type", .jstr "bugfix")])) :=
  ⟨⟨rfl, rfl,
    (C6_analyze_change_bounded_retry (fun _ => none) "add login" "s").2.2.1
      rfl rfl⟩,
    (C6_analyze_change_bounded_retry
      (fun _ => some (.jobj [("change_type", .jstr "bugfix")]))
      "add login" "s").1 (.jobj [("change_type", .jstr "bugfix")]) rfl⟩

/-! ## Memory store properties (C4, C5) and the post-change updater -/

theorem jgetD_jset_ne (j : JValue) (k k' : String) (v dflt : JValue)
    (h : k ≠ k') : jgetD (jset j k v) k' dflt = jgetD j k' dflt := by
  cases j with
  | jobj kvs => simp [jgetD, jset, dictGet_dictSet_ne kvs k k' v h]
  | jnull => rfl
  | jbool b => rfl
  | jint n => rfl
  | jstr s => rfl
  | jarr xs => rfl

theorem jgetD_jset_self (kvs : List (String × JValue)) (k : String)
    (v dflt : JValue) : jgetD (jset (.jobj kvs) k v) k dflt = v := by
  simp [jgetD, jset, dictGet_dictSet_self kvs k v]

/-- C4: save followed by load in a fresh instance over the same store
returns a record whose persisted module entries, decisions and change
history equal those of the saved record (save only restamps
last_updated). -/
theorem C4_save_load_roundtrip (d : JValue) (st : MMState)
    (now name now2 : String) :
    memModules
        (MemoryManager.load (MemoryManager.save st d now) name now2).1 =
        memModules d ∧
      memDecisions
        (MemoryManager.load (MemoryManager.save st d now) name now2).1 =
        memDecisions d ∧
      memChangeHistory
        (MemoryManager.load (MemoryManager.save st d now) name now2).1 =
        memChangeHistory d := by
  have hload : (MemoryManager.load (MemoryManager.save st d now) name now2).1
      = jset d "last_updated" (.jstr now) := rfl
  rw [hload]
  refine ⟨?_, ?_, ?_⟩
  · exact jgetD_jset_ne d "last_updated" "modules" (.jstr now) (.jobj [])
      (by decide)
  · exact jgetD_jset_ne d "last_updated" "decisions" (.jstr now) (.jarr [])
      (by decide)
  · exact jgetD_jset_ne d "last_updated" "change_history" (.jstr now)
      (.jarr []) (by decide)

/-- C5: load is total and never raises.  An absent memory file yields
the in-memory default record with the on-disk state untouched (nothing
persisted); an unparsable file is renamed aside to the backup path with
its raw content preserved and a fresh well-formed default record is
returned; a parsed file is returned as stored. -/
theorem C5_load_corruption_recovery (st : MMState) (name now : String) :
    (st.memfile = .absent →
      MemoryManager.load st name now = (default_memory name now, st)) ∧
    (∀ raw, st.memfile = .invalid raw →
      MemoryManager.load st name now =
        (default_memory name now, ⟨.absent, some raw⟩)) ∧
    (∀ d, st.memfile = .valid d →
      MemoryManager.load st name now = (d, st)) := by
  refine ⟨?_, ?_, ?_⟩
  · intro h
    unfold MemoryManager.load
    rw [h]
  · intro raw h
    unfold MemoryManager.load
    rw [h]
  · intro d h
    unfold MemoryManager.load
    rw [h]

/-- Witness for C5: the three disk states at concrete values. -/
theorem C5_load_corruption_recovery_witness :
    (MMState.mk .absent none).memfile = .absent ∧
      MemoryManager.load ⟨.absent, none⟩ "proj" "t0" =
        (default_memory "proj" "t0", ⟨.absent, none⟩) ∧
      (MMState.mk (.invalid "not json!") none).memfile =
        .invalid "not json!" ∧
      MemoryManager.load ⟨.invalid "not json!", none⟩ "proj" "t0" =
        (default_memory "proj" "t0", ⟨.absent, some "not json!"⟩) :=
  ⟨rfl,
    (C5_load_corruption_recovery ⟨.absent, none⟩ "proj" "t0").1 rfl,
    rfl,
    (C5_load_corruption_recovery ⟨.invalid "not json!", none⟩ "proj"
      "t0").2.1 "not json!" rfl⟩

/-- The in-place module status mutation of update_after_change:
mod = get_module(name); if mod is not None: mod["status"] =
"in_progress" (the mutation writes through into the modules dict). -/
def setModuleStatusInProgress (mem : JValue) (mod_name : String) : JValue :=
  match memModules mem with
  | .jobj kvs =>
      match dictGet kvs mod_name with
      | some m => jset mem "modules"
          (.jobj (dictSet kvs mod_name (jset m "status" (.jstr "in_progress"))))
      | none => mem
  | _ => mem

/-- A FileRec whose JSON would be the empty dict: all read sites supply
these defaults for missing keys. -/
def emptyFileRec : FileRec := ⟨"", "", [], [], 0, "", ""⟩

/-- MemoryUpdater._reindex_files: for each path, pop the record when
the file no longer exists, keep it untouched when the file cannot be
read, otherwise upsert its token count; then recompute both aggregate
totals from scratch and write the index back. -/
def reindex_files (tok : String → Nat) (fs : FileSys) (index : Index)
    (file_paths : List String) : Index :=
  let files_data := file_paths.foldl (fun fd rel_path =>
    match dictGet fs rel_path with
    | none => dictPop fd rel_path
    | some none => fd
    | some (some content) =>
        let existing := (dictGet fd rel_path).getD emptyFileRec
        dictSet fd rel_path ⟨existing.purpose, existing.module,
          existing.imports, existing.exports, tok content,
          existing.last_modified, existing.summary⟩) index.files
  ⟨index.indexed_at, files_data.length,
    (files_data.map (fun f => f.2.token_count)).sum,
    files_data, index.modules⟩

/-- MemoryUpdater.update_after_change: load memory, append the change
with tokens_saved clamped at zero, mark the affected modules
in-progress, save, and re-index the affected files. -/
def update_after_change (tok : String → Nat) (fs : FileSys) (st : MMState)
    (index : Index) (project_name now : String) (change_description : String)
    (analysis : ChangeAnalysis) (tokens_used full_codebase_tokens : Int) :
    MMState × Index :=
  let loaded := MemoryManager.load st project_name now
  let tokens_saved := max 0 (full_codebase_tokens - tokens_used)
  let mem1 := add_change loaded.1 now change_description
    analysis.affected_files tokens_used tokens_saved
  let mem2 := analysis.affected_modules.foldl setModuleStatusInProgress mem1
  (MemoryManager.save loaded.2 mem2 now,
    reindex_files tok fs index analysis.affected_files)

theorem memChangeHistory_setStatus (mem : JValue) (mod_name : String) :
    memChangeHistory (setModuleStatusInProgress mem mod_name) =
      memChangeHistory mem := by
  unfold setModuleStatusInProgress
  split
  · split
    · exact jgetD_jset_ne mem "modules" "change_history" _ _ (by decide)
    · rfl
  · rfl

theorem memChangeHistory_foldl_setStatus (mods : List String) (mem : JValue) :
    memChangeHistory (mods.foldl setModuleStatusInProgress mem) =
      memChangeHistory mem := by
  induction mods generalizing mem with
  | nil => rfl
  | cons m mods ih =>
      rw [List.foldl_cons, ih, memChangeHistory_setStatus]

theorem add_change_history (kvs : List (String × JValue))
    (now desc : String) (files : List String) (used saved : Int)
    (hs : List JValue)
    (h : memChangeHistory (.jobj kvs) = .jarr hs) :
    memChangeHistory (add_change (.jobj kvs) now desc files used saved) =
      .jarr (hs ++ [changeEventObj now desc files used saved]) := by
  unfold add_change
  by_cases hhas : jhas (.jobj kvs) "change_history" = true
  · rw [if_pos hhas]
    dsimp only
    have hget : jgetD (.jobj kvs) "change_history" (.jarr []) = .jarr hs := h
    rw [hget]
    exact (jgetD_jset_self kvs "change_history"
      (.jarr (hs ++ [changeEventObj now desc files used saved])) (.jarr []))
  · rw [if_neg hhas]
    dsimp only
    have hnone : dictGet kvs "change_history" = none := by
      by_contra hc
      apply hhas
      show (dictGet kvs "change_history").isSome = true
      cases hd : dictGet kvs "change_history" with
      | none => exact absurd hd hc
      | some v => simp
    have hs0 : hs = [] := by
      have hred : memChangeHistory (.jobj kvs) = .jarr [] := by
        show (dictGet kvs "change_history").getD (.jarr []) = .jarr []
        rw [hnone]
        rfl
      rw [hred] at h
      injection h.symm
    subst hs0
    have hget2 : jgetD (jset (.jobj kvs) "change_history" (.jarr []))
        "change_history" (.jarr []) = .jarr [] :=
      jgetD_jset_self kvs "change_history" (.jarr []) (.jarr [])
    rw [hget2]
    exact jgetD_jset_self (dictSet kvs "change_history" (.jarr []))
      "change_history" _ (.jarr [])

/-- C10: every update_after_change call appends a ChangeEvent whose
tokens_saved equals max(0, full_codebase_tokens - tokens_used): the
recorded saving is clamped and never negative, even when the tokens
actually sent exceed the full-codebase count. -/
theorem C10_update_after_change_clamped_savings (tok : String → Nat)
    (fs : FileSys) (st : MMState) (index : Index)
    (name now desc : String) (a : ChangeAnalysis) (used full : Int)
    (kvs : List (String × JValue)) (hs : List JValue)
    (hmem : (MemoryManager.load st name now).1 = .jobj kvs)
    (hhist : memChangeHistory (.jobj kvs) = .jarr hs) :
    (update_after_change tok fs st index name now desc a used full).1.memfile
        = .valid (jset
          (a.affected_modules.foldl setModuleStatusInProgress
            (add_change (.jobj kvs) now desc a.affected_files used
              (max 0 (full - used))))
          "last_updated" (.jstr now)) ∧
      memChangeHistory (jset
          (a.affected_modules.foldl setModuleStatusInProgress
            (add_change (.jobj kvs) now desc a.affected_files used
              (max 0 (full - used))))
          "last_updated" (.jstr now)) =
        .jarr (hs ++ [changeEventObj now desc a.affected_files used
          (max 0 (full - used))]) ∧
      0 ≤ max 0 (full - used) := by
  refine ⟨?_, ?_, ?_⟩
  · unfold update_after_change MemoryManager.save
    dsimp only
    rw [hmem]
  · rw [show memChangeHistory (jset
        (a.affected_modules.foldl setModuleStatusInProgress
          (add_change (.jobj kvs) now desc a.affected_files used
            (max 0 (full - used))))
        "last_updated" (.jstr now)) =
      memChangeHistory
        (a.affected_modules.foldl setModuleStatusInProgress
          (add_change (.jobj kvs) now desc a.affected_files used
            (max 0 (full - used)))) from
      jgetD_jset_ne _ "last_updated" "change_history" (.jstr now) (.jarr [])
        (by decide)]
    rw [memChangeHistory_foldl_setStatus]
    exact add_change_history kvs now desc a.affected_files used
      (max 0 (full - used)) hs hhist
  · exact le_max_left 0 (full - used)

/-- Witness for C10: a concrete call on an absent memory file (so load
yields the default record with empty history) where tokens_used
exceeds the full-codebase count, recording a clamped saving of 0. -/
theorem C10_update_after_change_clamped_savings_witness :
    (MemoryManager.load ⟨.absent, none⟩ "proj" "t0").1 =
        default_memory "proj" "t0" ∧
      memChangeHistory (default_memory "proj" "t0") = .jarr [] ∧
      memChangeHistory (jset
          (ChangeAnalysis.affected_modules
              ⟨"feature", [], ["a.py"], false, [], [], "simple", 0⟩
            |>.foldl setModuleStatusInProgress
            (add_change (default_memory "proj" "t0") "t0" "tweak"
              (ChangeAnalysis.affected_files
                ⟨"feature", [], ["a.py"], false, [], [], "simple", 0⟩)
              500 (max 0 (300 - 500))))
          "last_updated" (.jstr "t0")) =
        .jarr ([] ++ [changeEventObj "t0" "tweak"
          (ChangeAnalysis.affected_files
            ⟨"feature", [], ["a.py"], false, [], [], "simple", 0⟩)
          500 (max 0 (300 - 500))]) ∧
      (0 : Int) ≤ max 0 (300 - 500) := by
  have hdm : default_memory "proj" "t0" =
      .jobj [("project_name", .jstr "proj"),
        ("created_at", .jstr "t0"),
        ("last_updated", .jstr "t0"),
        ("stack", .jobj [("language", .jstr ""), ("frontend", .jnull),
          ("backend", .jnull), ("database", .jnull), ("auth", .jnull),
          ("hosting", .jnull)]),
        ("ai_target", .jstr "both"),
        ("modules", .jobj []),
        ("decisions", .jarr []),
        ("change_history", .jarr [])] := rfl
  have happ := C10_update_after_change_clamped_savings (fun _ => 0) []
    ⟨.absent, none⟩ ⟨"", 0, 0, [], []⟩ "proj" "t0" "tweak"
    ⟨"feature", [], ["a.py"], false, [], [], "simple", 0⟩ 500 300
    [("project_name", .jstr "proj"),
      ("created_at", .jstr "t0"),
      ("last_updated", .jstr "t0"),
      ("stack", .jobj [("language", .jstr ""), ("frontend", .jnull),
        ("backend", .jnull), ("database", .jnull), ("auth", .jnull),
        ("hosting", .jnull)]),
      ("ai_target", .jstr "both"),
      ("modules", .jobj []),
      ("decisions", .jarr []),
      ("change_history", .jarr [])] [] rfl rfl
  exact ⟨rfl, rfl, by rw [hdm]; exact happ.2.1, happ.2.2⟩

/-! ## src/memory/file_indexer.py: the walk and the full build

The import/export regular-expression detectors are abstracted as
function parameters (no claim concerns their output); every theorem
below holds for all detectors. -/

/-- Python pathlib suffix of a file name: from the last dot on, empty
when there is no dot, the only dot is leading, or the dot is last. -/
def pySuffix (name : String) : String :=
  let cs := name.toList
  let i := cs.length - 1 - (cs.reverse.findIdx (fun c => c == '.'))
  if cs.contains '.' ∧ 0 < i ∧ i + 1 < cs.length then
    String.mk (cs.drop i)
  else ""

/-- Python str.lower() restricted to ASCII, which is all the extension
allow-list comparison needs. -/
def strLower (s : String) : String :=
  String.mk (s.toList.map Char.toLower)

/-- A directory tree: the files and the named subdirectories of one
directory. -/
inductive FSTree where
  | node (files : List String) (dirs : List (String × FSTree))

mutual

/-- FileIndexer._walk_files on one directory: the current directory's
files whose lowercased suffix is in the allow-list (as single-segment
paths), then the recursive walk of the subdirectories in order. -/
def walkFiles : FSTree → List (List String)
  | .node files dirs =>
      (files.filter (fun n =>
        INDEXED_EXTENSIONS.contains (strLower (pySuffix n)))).map
          (fun n => [n]) ++ walkDirs dirs

/-- The subdirectory walk with the in-place prune: a directory whose
name is in the ignore set is skipped entirely. -/
def walkDirs : List (String × FSTree) → List (List String)
  | [] => []
  | (dname, sub) :: rest =>
      (if IGNORED_DIRS.contains dname then []
       else (walkFiles sub).map (fun p => dname :: p)) ++ walkDirs rest

end

/-- Joins path segments with the separator (relative_to output). -/
def joinPath : List String → String
  | [] => ""
  | [s] => s
  | s :: rest => s ++ "/" ++ joinPath rest

/-- The accumulator of the full index build loop. -/
structure BuildSt where
  files_data : List (String × FileRec)
  modules : List (String × List String)
  total_tokens : Nat

/-- modules.setdefault(module, []).append(rel). -/
def moduleAppend (modules : List (String × List String))
    (module rel : String) : List (String × List String) :=
  match dictGet modules module with
  | some ps => dictSet modules module (ps ++ [rel])
  | none => modules ++ [(module, [rel])]

/-- One iteration of FileIndexer.index's loop over a readable file. -/
def indexStep (tok : String → Nat)
    (detectImports detectExports : String → String → List String)
    (mtime : String → String) (st : BuildSt) (rel content : String) :
    BuildSt :=
  let tokens := tok content
  let suffix := pySuffix ((pathParts rel).getLastD "")
  let module := detect_module rel
  ⟨dictSet st.files_data rel
      ⟨"", module, detectImports content suffix, detectExports content suffix,
        tokens, mtime rel, ""⟩,
    if module ≠ "" then moduleAppend st.modules module rel else st.modules,
    st.total_tokens + tokens⟩

/-- FileIndexer.index over an already-walked path list: read every
file (skipping unreadable ones), record its token count, imports,
exports and module, group modules, and store the aggregate totals. -/
def FileIndexer.index (tok : String → Nat)
    (detectImports detectExports : String → String → List String)
    (mtime : String → String) (fs : FileSys) (walked : List String)
    (now : String) : Index :=
  let st := walked.foldl (fun st rel =>
    match readFile fs rel with
    | none => st
    | some content => indexStep tok detectImports detectExports mtime st
        rel content) ⟨[], [], 0⟩
  ⟨now, st.files_data.length, st.total_tokens, st.files_data, st.modules⟩

theorem dictHas_append_single {α : Type} (d : List (String × α))
    (k r : String) (v : α) :
    dictHas (d ++ [(k, v)]) r = (dictHas d r || (k == r)) := by
  induction d with
  | nil =>
      simp only [List.nil_append, dictHas, dictGet]
      by_cases h : k = r
      · simp [h]
      · simp [h]
  | cons e t ih =>
      by_cases he : (e.1 == r) = true
      · simp [dictHas, dictGet, he]
      · have he' : (e.1 == r) = false := by
          cases hb : (e.1 == r) with
          | true => exact absurd hb he
          | false => rfl
        simp only [List.cons_append]
        show (dictGet ((e :: (t ++ [(k, v)]))) r).isSome =
          ((dictGet (e :: t) r).isSome || (k == r))
        simp only [dictGet, he', Bool.false_eq_true, if_false]
        exact ih

theorem indexFold_invariant (tok : String → Nat)
    (di de : String → String → List String) (mtime : String → String)
    (fs : FileSys) (walked : List String) (st : BuildSt)
    (hnd : walked.Nodup)
    (hfresh : ∀ r ∈ walked, dictHas st.files_data r = false)
    (hsum : st.total_tokens =
      (st.files_data.map (fun f => f.2.token_count)).sum) :
    (walked.foldl (fun st rel =>
      match readFile fs rel with
      | none => st
      | some content => indexStep tok di de mtime st rel content)
        st).total_tokens =
      ((walked.foldl (fun st rel =>
        match readFile fs rel with
        | none => st
        | some content => indexStep tok di de mtime st rel content)
          st).files_data.map (fun f => f.2.token_count)).sum := by
  induction walked generalizing st with
  | nil => exact hsum
  | cons rel rest ih =>
      have hnd' : rest.Nodup := (List.nodup_cons.mp hnd).2
      have hrel : ¬ rel ∈ rest := (List.nodup_cons.mp hnd).1
      rw [List.foldl_cons]
      cases hfs : readFile fs rel with
      | none => exact ih st hnd' (fun r hr => hfresh r (by simp [hr])) hsum
      | some content =>
          refine ih (indexStep tok di de mtime st rel content) hnd' ?_ ?_
          · intro r hr
            have hfreshrel : dictHas st.files_data rel = false :=
              hfresh rel (by simp)
            have hset : dictSet st.files_data rel
                ⟨"", detect_module rel,
                  di content (pySuffix ((pathParts rel).getLastD "")),
                  de content (pySuffix ((pathParts rel).getLastD "")),
                  tok content, mtime rel, ""⟩ =
                st.files_data ++ [(rel,
                  ⟨"", detect_module rel,
                    di content (pySuffix ((pathParts rel).getLastD "")),
                    de content (pySuffix ((pathParts rel).getLastD "")),
                    tok content, mtime rel, ""⟩)] :=
              dictSet_of_not_has _ _ _ hfreshrel
            show dictHas (dictSet st.files_data rel _) r = false
            rw [hset, dictHas_append_single]
            have h1 : dictHas st.files_data r = false :=
              hfresh r (by simp [hr])
            have h2 : (rel == r) = false := by
              have : rel ≠ r := fun he => hrel (he ▸ hr)
              simpa using this
            rw [h1, h2]
            rfl
          · have hfreshrel : dictHas st.files_data rel = false :=
              hfresh rel (by simp)
            show st.total_tokens + tok content =
              ((dictSet st.files_data rel _).map
                (fun f => f.2.token_count)).sum
            rw [dictSet_of_not_has _ _ _ hfreshrel]
            simp [hsum]

/-- C7: after a full index build (over duplicate-free walked paths, as
a directory walk yields) and after every partial re-index, total_files
equals the size of the files mapping and total_tokens_if_full_read
equals the sum of the per-file token counts, both recomputed from the
resulting mapping. -/
theorem C7_index_totals_invariant (tok : String → Nat)
    (di de : String → String → List String) (mtime : String → String)
    (fs fs2 : FileSys) (walked : List String) (now : String)
    (index2 : Index) (file_paths : List String)
    (hnd : walked.Nodup) :
    ((FileIndexer.index tok di de mtime fs walked now).total_files =
        (FileIndexer.index tok di de mtime fs walked now).files.length ∧
      (FileIndexer.index tok di de mtime fs walked now).total_tokens_if_full_read =
        ((FileIndexer.index tok di de mtime fs walked now).files.map
          (fun f => f.2.token_count)).sum) ∧
    ((reindex_files tok fs2 index2 file_paths).total_files =
        (reindex_files tok fs2 index2 file_paths).files.length ∧
      (reindex_files tok fs2 index2 file_paths).total_tokens_if_full_read =
        ((reindex_files tok fs2 index2 file_paths).files.map
          (fun f => f.2.token_count)).sum) :=
  ⟨⟨rfl,
    indexFold_invariant tok di de mtime fs walked ⟨[], [], 0⟩ hnd
      (fun _ _ => rfl) rfl⟩,
    ⟨rfl, rfl⟩⟩

/-- Witness for C7: the invariant applied to a concrete two-file
project (one file of which is unreadable) and a concrete re-index that
removes a deleted file and upserts a changed one. -/
theorem C7_index_totals_invariant_witness :
    (["a.py", "b/c.py", "d.md"].Nodup ∧
      (FileIndexer.index (fun s => s.length) (fun _ _ => []) (fun _ _ => [])
          (fun _ => "")
          [("a.py", some "xy"), ("b/c.py", none), ("d.md", some "hello")]
          ["a.py", "b/c.py", "d.md"] "t0").total_tokens_if_full_read =
        ((FileIndexer.index (fun s => s.length) (fun _ _ => [])
          (fun _ _ => []) (fun _ => "")
          [("a.py", some "xy"), ("b/c.py", none), ("d.md", some "hello")]
          ["a.py", "b/c.py", "d.md"] "t0").files.map
            (fun f => f.2.token_count)).sum) ∧
      (reindex_files (fun s => s.length)
          [("a.py", some "xyz")]
          ⟨"t0", 2, 7, [("a.py", ⟨"", "root", [], [], 2, "", ""⟩),
            ("d.md", ⟨"", "root", [], [], 5, "", ""⟩)], []⟩
          ["a.py", "d.md"]).total_tokens_if_full_read =
        ((reindex_files (fun s => s.length)
          [("a.py", some "xyz")]
          ⟨"t0", 2, 7, [("a.py", ⟨"", "root", [], [], 2, "", ""⟩),
            ("d.md", ⟨"", "root", [], [], 5, "", ""⟩)], []⟩
          ["a.py", "d.md"]).files.map (fun f => f.2.token_count)).sum :=
  ⟨⟨by decide,
    ((C7_index_totals_invariant (fun s => s.length) (fun _ _ => [])
      (fun _ _ => []) (fun _ => "")
      [("a.py", some "xy"), ("b/c.py", none), ("d.md", some "hello")]
      [("a.py", some "xyz")] ["a.py", "b/c.py", "d.md"] "t0"
      ⟨"t0", 2, 7, [("a.py", ⟨"", "root", [], [], 2, "", ""⟩),
        ("d.md", ⟨"", "root", [], [], 5, "", ""⟩)], []⟩
      ["a.py", "d.md"] (by decide)).1).2⟩,
    ((C7_index_totals_invariant (fun s => s.length) (fun _ _ => [])
      (fun _ _ => []) (fun _ => "")
      [("a.py", some "xy"), ("b/c.py", none), ("d.md", some "hello")]
      [("a.py", some "xyz")] ["a.py", "b/c.py", "d.md"] "t0"
      ⟨"t0", 2, 7, [("a.py", ⟨"", "root", [], [], 2, "", ""⟩),
        ("d.md", ⟨"", "root", [], [], 5, "", ""⟩)], []⟩
      ["a.py", "d.md"] (by decide)).2).2⟩

theorem dictSet_keys_subset {α : Type} (d : List (String × α))
    (k r : String) (v : α)
    (h : r ∈ (dictSet d k v).map Prod.fst) :
    r ∈ d.map Prod.fst ∨ r = k := by
  induction d with
  | nil =>
      simp [dictSet] at h
      exact Or.inr h
  | cons e t ih =>
      by_cases he : (e.1 == k) = true
      · simp only [dictSet, he, if_true, List.map_cons] at h
        rcases List.mem_cons.mp h with h | h
        · exact Or.inr h
        · exact Or.inl (by simp [h])
      · have he' : (e.1 == k) = false := by
          cases hb : (e.1 == k) with
          | true => exact absurd hb he
          | false => rfl
        simp only [dictSet, he', Bool.false_eq_true, if_false,
          List.map_cons] at h
        rcases List.mem_cons.mp h with h | h
        · exact Or.inl (by simp [h])
        · rcases ih h with h | h
          · exact Or.inl (by simp [h])
          · exact Or.inr h

theorem indexFold_keys (tok : String → Nat)
    (di de : String → String → List String) (mtime : String → String)
    (fs : FileSys) (walked : List String) (st : BuildSt) (key : String)
    (h : key ∈ ((walked.foldl (fun st rel =>
      match readFile fs rel with
      | none => st
      | some content => indexStep tok di de mtime st rel content)
        st).files_data.map Prod.fst)) :
    key ∈ st.files_data.map Prod.fst ∨ key ∈ walked := by
  induction walked generalizing st with
  | nil => exact Or.inl h
  | cons rel rest ih =>
      rw [List.foldl_cons] at h
      cases hfs : readFile fs rel with
      | none =>
          rw [hfs] at h
          rcases ih st h with h | h
          · exact Or.inl h
          · exact Or.inr (by simp [h])
      | some content =>
          rw [hfs] at h
          rcases ih (indexStep tok di de mtime st rel content) h with h | h
          · rcases dictSet_keys_subset st.files_data rel key _ h with h | h
            · exact Or.inl h
            · exact Or.inr (by simp [h])
          · exact Or.inr (by simp [h])

mutual

theorem walkFiles_no_ignored (t : FSTree) :
    ∀ p ∈ walkFiles t, p ≠ [] ∧ ∀ d ∈ p.dropLast, ¬ d ∈ IGNORED_DIRS := by
  cases t with
  | node files dirs =>
      intro p hp
      unfold walkFiles at hp
      rcases List.mem_append.mp hp with h | h
      · rcases List.mem_map.mp h with ⟨n, hn, hpn⟩
        rw [← hpn]
        exact ⟨by simp, by simp⟩
      · exact walkDirs_no_ignored dirs p h

theorem walkDirs_no_ignored (ds : List (String × FSTree)) :
    ∀ p ∈ walkDirs ds, p ≠ [] ∧ ∀ d ∈ p.dropLast, ¬ d ∈ IGNORED_DIRS := by
  cases ds with
  | nil =>
      intro p hp
      simp [walkDirs] at hp
  | cons e rest =>
      intro p hp
      unfold walkDirs at hp
      rcases List.mem_append.mp hp with h | h
      · by_cases hig : IGNORED_DIRS.contains e.1 = true
        · rw [if_pos hig] at h
          simp at h
        · rw [if_neg hig] at h
          rcases List.mem_map.mp h with ⟨q, hq, hpq⟩
          have hq' := walkFiles_no_ignored e.2 q hq
          rw [← hpq]
          refine ⟨by simp, ?_⟩
          intro d hd
          rcases List.exists_cons_of_ne_nil hq'.1 with ⟨b, q2, hq2⟩
          rw [hq2] at hd
          rw [List.dropLast_cons₂] at hd
          rcases List.mem_cons.mp hd with hd | hd
          · rw [hd]
            intro hmem
            apply hig
            simpa using hmem
          · exact hq'.2 d (by rw [hq2]; simpa using hd)
      · exact walkDirs_no_ignored rest p h

end

/-- C9: no file beneath a directory whose name is in the ignore set
appears in the files mapping of a full index build: every key of the
mapping is a walked path, and every walked path has no ignored
directory among its directory segments (the walk prunes them). -/
theorem C9_ignored_dirs_excluded (t : FSTree) (tok : String → Nat)
    (di de : String → String → List String) (mtime : String → String)
    (fs : FileSys) (now key : String)
    (hkey : key ∈ (FileIndexer.index tok di de mtime fs
      ((walkFiles t).map joinPath) now).files.map Prod.fst) :
    ∃ segs, segs ∈ walkFiles t ∧ key = joinPath segs ∧
      ∀ d ∈ segs.dropLast, ¬ d ∈ IGNORED_DIRS := by
  have hkey' : key ∈ ((((walkFiles t).map joinPath).foldl (fun st rel =>
      match readFile fs rel with
      | none => st
      | some content => indexStep tok di de mtime st rel content)
        (⟨[], [], 0⟩ : BuildSt)).files_data.map Prod.fst) := hkey
  rcases indexFold_keys tok di de mtime fs ((walkFiles t).map joinPath)
      ⟨[], [], 0⟩ key hkey' with h | h
  · simp at h
  · rcases List.mem_map.mp h with ⟨segs, hsegs, hjoin⟩
    have hni := walkFiles_no_ignored t segs hsegs
    exact ⟨segs, hsegs, hjoin.symm, hni.2⟩

/-- Witness for C9: a concrete tree with a .git directory (whose file
secret.py is pruned away) and an app directory whose file ends up in
the index under the key app/x.py. -/
theorem C9_ignored_dirs_excluded_witness :
    "app/x.py" ∈ (FileIndexer.index (fun _ => 1) (fun _ _ => [])
        (fun _ _ => []) (fun _ => "")
        [("main.py", some "m"), ("app/x.py", some "x")]
        ((walkFiles (.node ["main.py"]
          [(".git", .node ["secret.py"] []),
            ("app", .node ["x.py"] [])])).map joinPath) "t0").files.map
        Prod.fst ∧
      ∃ segs, segs ∈ walkFiles (.node ["main.py"]
          [(".git", .node ["secret.py"] []), ("app", .node ["x.py"] [])]) ∧
        "app/x.py" = joinPath segs ∧
        ∀ d ∈ segs.dropLast, ¬ d ∈ IGNORED_DIRS :=
  ⟨by decide,
    C9_ignored_dirs_excluded
      (.node ["main.py"]
        [(".git", .node ["secret.py"] []), ("app", .node ["x.py"] [])])
      (fun _ => 1) (fun _ _ => []) (fun _ _ => []) (fun _ => "")
      [("main.py", some "m"), ("app/x.py", some "x")] "t0" "app/x.py"
      (by decide)⟩

end Preflight
